import Mathlib

/-!
# rsc-regex: a verification development

A shallow embedding of `rsc_regex.py`: a regex AST (`Expr`), a bytecode
compiler (`compile`), a bounded explicit-thread executor (`runLoop` /
`run_thread` / `matchLoop` / `matchRun`, after Python's `run_thread` and
`match`), and the native lowering pass (`native_compile`).

Conventions of the embedding:
* Python `str` values (literals, the input text) are `List Char`.
* Python `int` program counters and displacements are `Int`; Python's list
  indexing, including its negative-index wraparound, is `pyGet`.
* Python exceptions become `Except` errors; the executor additionally takes
  a `fuel : Nat` and returns `none` when the fuel runs out, since a
  hand-built program with negative displacements can loop forever.
* Python's `threads` list is a LIFO stack: `list.append` + `list.pop`
  (which removes the last element) are modelled by cons and head so that
  the head of the Lean list is the next thread popped; `len(threads)` is
  `threads.length` either way.
-/

namespace RscRegex

/-- The regex AST of `rsc_regex.py` (`Lit`, `Seq`, `Alt`, `Maybe`, `Star`,
`Plus`).  A `Lit` holds an arbitrary string, as in Python; the compiler
enforces the single-character invariant. -/
inductive Expr where
  | Lit (value : List Char)
  | Seq (left right : Expr)
  | Alt (left right : Expr)
  | Maybe (expr : Expr)
  | Star (expr : Expr)
  | Plus (expr : Expr)
deriving DecidableEq

/-- The bytecode of `rsc_regex.py`: `Char`, `Match`, `Jump` (relative
displacement) and `Split` (two relative displacements). -/
inductive Opcode where
  | Char (value : Char)
  | Match
  | Jump (target : Int)
  | Split (target1 target2 : Int)
deriving DecidableEq

/-- Errors the Python code can raise: the `assert` in `compile`
(`AssertionError`), the `NotImplementedError` branches, the
`RuntimeError("Too many threads")`, and an out-of-range list index. -/
inductive RegexError where
  | invalidLiteral
  | unsupported
  | tooManyThreads
  | indexError
deriving DecidableEq

/-- `compile(expr)` from `rsc_regex.py`, with Python's exceptions as
`Except.error`.  Matches the source case by case: a single-character
literal becomes one `Char` opcode, `Seq` concatenates, `Alt` emits
`Split(0, len(left)+1)`, the left block, `Jump(len(right)+1)`, then the
right block, and everything else raises. -/
def compile : Expr → Except RegexError (List Opcode)
  | .Lit [c] => .ok [.Char c]
  | .Lit _ => .error .invalidLiteral
  | .Seq l r =>
    match compile l with
    | .error e => .error e
    | .ok left =>
      match compile r with
      | .error e => .error e
      | .ok right => .ok (left ++ right)
  | .Alt l r =>
    match compile l with
    | .error e => .error e
    | .ok left =>
      match compile r with
      | .error e => .error e
      | .ok right =>
        .ok ([.Split 0 ((left.length : Int) + 1)] ++ left ++
             [.Jump ((right.length : Int) + 1)] ++ right)
  | .Maybe _ => .error .unsupported
  | .Star _ => .error .unsupported
  | .Plus _ => .error .unsupported

/-- An execution path, Python's `Thread` dataclass: a program counter and a
position in the text. -/
structure Thread where
  pc : Int
  textp : Nat
deriving DecidableEq

/-- Python's `MAX_THREADS = 10`. -/
def MAX_THREADS : Nat := 10

/-- Python list indexing `ops[i]` for an `int` index: in range from the
front for `0 ≤ i < len`, wrapped from the back for `-len ≤ i < 0`, and an
`IndexError` (here `none`) otherwise. -/
def pyGet (ops : List Opcode) (i : Int) : Option Opcode :=
  if 0 ≤ i then ops.get? i.toNat
  else if 0 ≤ i + ops.length then ops.get? (i + ops.length).toNat
  else none

/-- The `while pc < len(ops)` loop of Python's `run_thread`, for one thread
whose registers are `pc` and `textp`; `threads` is the pending list (the
current thread is already popped).  The Python statements `op = ops[pc];
pc += 1` appear here as `pyGet ops pc` and the `pc + 1` in each branch.
Returns the thread's boolean verdict together with the pending list
(Python mutates the list in place), `Except.error` for a raised exception,
and `none` when the fuel is exhausted. -/
def runLoop (ops : List Opcode) (text : List Char) :
    Nat → Int → Nat → List Thread → Option (Except RegexError (Bool × List Thread))
  | 0, _, _, _ => none
  | fuel + 1, pc, textp, threads =>
    if pc < (ops.length : Int) then
      match pyGet ops pc with
      | none => some (.error .indexError)
      | some (.Char v) =>
        -- `if textp >= len(text) or text[textp] != op.value: return False`
        if text.get? textp = some v then
          runLoop ops text fuel (pc + 1) (textp + 1) threads
        else
          some (.ok (false, threads))
      | some (.Jump t) => runLoop ops text fuel (pc + 1 + t) textp threads
      | some .Match => some (.ok (true, threads))
      | some (.Split t1 t2) =>
        if MAX_THREADS ≤ threads.length then
          some (.error .tooManyThreads)
        else
          runLoop ops text fuel (pc + 1 + t1) textp (⟨pc + 1 + t2, textp⟩ :: threads)
    else
      some (.ok (true, threads))

/-- Python's `run_thread(ops, text, threads)`: pop one thread (the head of
the Lean list, the last-appended element of the Python list) and run it. -/
def run_thread (ops : List Opcode) (text : List Char) (fuel : Nat) :
    List Thread → Option (Except RegexError (Bool × List Thread))
  | [] => some (.error .indexError)
  | t :: rest => runLoop ops text fuel t.pc t.textp rest

/-- The `while threads:` loop of Python's `match`. -/
def matchLoop (ops : List Opcode) (text : List Char) :
    Nat → List Thread → Option (Except RegexError Bool)
  | 0, _ => none
  | _ + 1, [] => some (.ok false)
  | fuel + 1, t :: rest =>
    match run_thread ops text (fuel + 1) (t :: rest) with
    | none => none
    | some (.error e) => some (.error e)
    | some (.ok (true, _)) => some (.ok true)
    | some (.ok (false, rest2)) => matchLoop ops text fuel rest2

/-- Python's `match(ops, text)`: start from the single thread `(0, 0)`. -/
def matchRun (ops : List Opcode) (text : List Char) (fuel : Nat) :
    Option (Except RegexError Bool) :=
  matchLoop ops text fuel [⟨0, 0⟩]

/-- Python's `native_compile` loop body for one opcode: the three strings
appended for a `Char` (note the source's `0x{ord(op.value)}` interpolates
the code point in decimal after a literal `0x`). -/
def nativeOps : List Opcode → Except RegexError (List String)
  | [] => .ok []
  | .Char v :: rest =>
    match nativeOps rest with
    | .error e => .error e
    | .ok r =>
      .ok (["cmpb [rdi], 0x" ++ toString v.toNat,
            "jne .Lno_match",
            "inc rdi"] ++ r)
  | _ :: _ => .error .unsupported

/-- Python's `native_compile(ops)`: the accumulated lines joined by
newlines (`"\n".join(result)`). -/
def native_compile (ops : List Opcode) : Except RegexError String :=
  match nativeOps ops with
  | .error e => .error e
  | .ok r => .ok (String.intercalate "\n" r)

/-- Whether an `Except` is an error (Python: whether the call raises). -/
def isErr {ε α : Type} : Except ε α → Bool
  | .error _ => true
  | .ok _ => false

/-- An expression contains a node `compile` rejects: a literal whose value
is not exactly one character, or one of the unsupported variants. -/
def hasBad : Expr → Bool
  | .Lit v => v.length != 1
  | .Seq l r => hasBad l || hasBad r
  | .Alt l r => hasBad l || hasBad r
  | .Maybe _ => true
  | .Star _ => true
  | .Plus _ => true

/-- Every opcode of the program is a `Char` (the precondition of the
native lowering pass). -/
def allChars (ops : List Opcode) : Bool :=
  ops.all fun op =>
    match op with
    | .Char _ => true
    | _ => false

/-- The spec's addressing invariant, as a decidable check: every `Jump`
and `Split` displacement, added to the address of the following
instruction, lands within `[0, len(program)]` inclusive. -/
def offsetsInRange (prog : List Opcode) : Bool :=
  prog.enum.all fun p =>
    match p.2 with
    | .Jump t =>
      decide (0 ≤ (p.1 : Int) + 1 + t) && decide ((p.1 : Int) + 1 + t ≤ (prog.length : Int))
    | .Split t1 t2 =>
      decide (0 ≤ (p.1 : Int) + 1 + t1) && decide ((p.1 : Int) + 1 + t1 ≤ (prog.length : Int)) &&
      decide (0 ≤ (p.1 : Int) + 1 + t2) && decide ((p.1 : Int) + 1 + t2 ≤ (prog.length : Int))
    | _ => true

/-- A left-nested chain of alternations: `deepAlt 0 = Lit "a"`,
`deepAlt (n+1) = Alt (deepAlt n) (Lit "a")`.  Its compiled program starts
with `n` consecutive `Split` opcodes, so a single eager thread defers `n`
continuations before resolving any. -/
def deepAlt : Nat → Expr
  | 0 => .Lit ['a']
  | n + 1 => .Alt (deepAlt n) (.Lit ['a'])

/-- Modelled from the spec: the recursive backtracking executor of §4.2,
which is described but absent from `src/`.  It walks the same four opcode
rules from caller-supplied coordinates; on `Split` it first recursively
attempts the first continuation and, if that fails, continues at the
second; running off the end of the program is success.  The spec leaves
out-of-range indices and nontermination unspecified, so both give `none`
(as does fuel exhaustion). -/
def backtrack (ops : List Opcode) (text : List Char) :
    Nat → Int → Nat → Option Bool
  | 0, _, _ => none
  | fuel + 1, pc, textp =>
    if pc < (ops.length : Int) then
      match pyGet ops pc with
      | none => none
      | some (.Char v) =>
        if text.get? textp = some v then
          backtrack ops text fuel (pc + 1) (textp + 1)
        else
          some false
      | some (.Jump t) => backtrack ops text fuel (pc + 1 + t) textp
      | some .Match => some true
      | some (.Split t1 t2) =>
        match backtrack ops text fuel (pc + 1 + t1) textp with
        | none => none
        | some true => some true
        | some false => backtrack ops text fuel (pc + 1 + t2) textp
    else
      some true

/-- Modelled from the spec: the reference language of an expression,
"directly interpreting the expression by structural definition (literal
match, concatenation, choice)".  The unsupported variants (which the
compiler rejects) denote the empty language. -/
def refLang : Expr → List Char → Bool
  | .Lit v => fun s => s == v
  | .Seq l r =>
    let fl := refLang l
    let fr := refLang r
    fun s => (List.range (s.length + 1)).any fun i => fl (s.take i) && fr (s.drop i)
  | .Alt l r =>
    let fl := refLang l
    let fr := refLang r
    fun s => fl s || fr s
  | .Maybe _ => fun _ => false
  | .Star _ => fun _ => false
  | .Plus _ => fun _ => false

/-- Modelled from the spec: the reference truth table for prefix
acceptance — some prefix of `s` is in the language of `e`. -/
def refMatch (e : Expr) (s : List Char) : Bool :=
  (List.range (s.length + 1)).any fun n => refLang e (s.take n)

/-- The nondeterministic acceptance relation of the bytecode machine:
`Accepts ops text pc textp` holds when some path from these coordinates
succeeds under the four opcode rules (with running off the end of the
program counting as success).  Both executors decide this relation. -/
inductive Accepts (ops : List Opcode) (text : List Char) : Int → Nat → Prop where
  | offEnd {pc : Int} {textp : Nat} (h : (ops.length : Int) ≤ pc) :
      Accepts ops text pc textp
  | char {pc : Int} {textp : Nat} {c : Char}
      (hop : pyGet ops pc = some (.Char c))
      (hc : text.get? textp = some c)
      (h : Accepts ops text (pc + 1) (textp + 1)) :
      Accepts ops text pc textp
  | jump {pc : Int} {textp : Nat} {t : Int}
      (hop : pyGet ops pc = some (.Jump t))
      (h : Accepts ops text (pc + 1 + t) textp) :
      Accepts ops text pc textp
  | acc {pc : Int} {textp : Nat}
      (hop : pyGet ops pc = some .Match) :
      Accepts ops text pc textp
  | splitL {pc : Int} {textp : Nat} {t1 t2 : Int}
      (hop : pyGet ops pc = some (.Split t1 t2))
      (h : Accepts ops text (pc + 1 + t1) textp) :
      Accepts ops text pc textp
  | splitR {pc : Int} {textp : Nat} {t1 t2 : Int}
      (hop : pyGet ops pc = some (.Split t1 t2))
      (h : Accepts ops text (pc + 1 + t2) textp) :
      Accepts ops text pc textp

/-- Some pending thread accepts. -/
def AnyAccepts (ops : List Opcode) (text : List Char) (threads : List Thread) : Prop :=
  ∃ t, t ∈ threads ∧ Accepts ops text t.pc t.textp

/-! ## Helper lemmas about indexing and the acceptance relation -/

theorem pyGet_eq_none_of_le {ops : List Opcode} {pc : Int}
    (h : (ops.length : Int) ≤ pc) : pyGet ops pc = none := by
  have h0 : 0 ≤ pc := le_trans (Int.ofNat_nonneg _) h
  unfold pyGet
  rw [if_pos h0, List.get?_eq_none]
  omega

theorem lt_of_pyGet_eq_some {ops : List Opcode} {pc : Int} {op : Opcode}
    (h : pyGet ops pc = some op) : pc < (ops.length : Int) := by
  by_contra hc
  rw [pyGet_eq_none_of_le (le_of_not_lt hc)] at h
  cases h

theorem accepts_char_iff {ops : List Opcode} {text : List Char} {pc : Int}
    {textp : Nat} {c : Char} (hop : pyGet ops pc = some (.Char c)) :
    Accepts ops text pc textp ↔
      (text.get? textp = some c ∧ Accepts ops text (pc + 1) (textp + 1)) := by
  constructor
  · intro h
    cases h with
    | offEnd hle => rw [pyGet_eq_none_of_le hle] at hop; cases hop
    | char hop2 hc h2 => rw [hop] at hop2; simp_all
    | jump hop2 h2 => rw [hop] at hop2; simp_all
    | acc hop2 => rw [hop] at hop2; simp_all
    | splitL hop2 h2 => rw [hop] at hop2; simp_all
    | splitR hop2 h2 => rw [hop] at hop2; simp_all
  · intro h
    exact .char hop h.1 h.2

theorem accepts_jump_iff {ops : List Opcode} {text : List Char} {pc t : Int}
    {textp : Nat} (hop : pyGet ops pc = some (.Jump t)) :
    Accepts ops text pc textp ↔ Accepts ops text (pc + 1 + t) textp := by
  constructor
  · intro h
    cases h with
    | offEnd hle => rw [pyGet_eq_none_of_le hle] at hop; cases hop
    | char hop2 hc h2 => rw [hop] at hop2; simp_all
    | jump hop2 h2 => rw [hop] at hop2; simp_all
    | acc hop2 => rw [hop] at hop2; simp_all
    | splitL hop2 h2 => rw [hop] at hop2; simp_all
    | splitR hop2 h2 => rw [hop] at hop2; simp_all
  · intro h
    exact .jump hop h

theorem accepts_split_iff {ops : List Opcode} {text : List Char} {pc t1 t2 : Int}
    {textp : Nat} (hop : pyGet ops pc = some (.Split t1 t2)) :
    Accepts ops text pc textp ↔
      (Accepts ops text (pc + 1 + t1) textp ∨ Accepts ops text (pc + 1 + t2) textp) := by
  constructor
  · intro h
    cases h with
    | offEnd hle => rw [pyGet_eq_none_of_le hle] at hop; cases hop
    | char hop2 hc h2 => rw [hop] at hop2; simp_all
    | jump hop2 h2 => rw [hop] at hop2; simp_all
    | acc hop2 => rw [hop] at hop2; simp_all
    | splitL hop2 h2 => rw [hop] at hop2; simp_all
    | splitR hop2 h2 => rw [hop] at hop2; simp_all
  · intro h
    cases h with
    | inl h => exact .splitL hop h
    | inr h => exact .splitR hop h

/-! ## Unfolding equations for one step of `runLoop` -/

theorem runLoop_zero {ops : List Opcode} {text : List Char} {pc : Int}
    {textp : Nat} {threads : List Thread} :
    runLoop ops text 0 pc textp threads = none := rfl

theorem runLoop_offEnd {ops : List Opcode} {text : List Char} {fuel : Nat}
    {pc : Int} {textp : Nat} {threads : List Thread}
    (hge : (ops.length : Int) ≤ pc) :
    runLoop ops text (fuel + 1) pc textp threads = some (.ok (true, threads)) := by
  rw [runLoop, if_neg (not_lt.mpr hge)]

theorem runLoop_indexError {ops : List Opcode} {text : List Char} {fuel : Nat}
    {pc : Int} {textp : Nat} {threads : List Thread}
    (hlt : pc < (ops.length : Int)) (hpg : pyGet ops pc = none) :
    runLoop ops text (fuel + 1) pc textp threads = some (.error .indexError) := by
  rw [runLoop, if_pos hlt, hpg]

theorem runLoop_char {ops : List Opcode} {text : List Char} {fuel : Nat}
    {pc : Int} {textp : Nat} {threads : List Thread} {v : Char}
    (hpg : pyGet ops pc = some (.Char v)) :
    runLoop ops text (fuel + 1) pc textp threads =
      if text.get? textp = some v then
        runLoop ops text fuel (pc + 1) (textp + 1) threads
      else
        some (.ok (false, threads)) := by
  rw [runLoop, if_pos (lt_of_pyGet_eq_some hpg), hpg]

theorem runLoop_jump {ops : List Opcode} {text : List Char} {fuel : Nat}
    {pc t : Int} {textp : Nat} {threads : List Thread}
    (hpg : pyGet ops pc = some (.Jump t)) :
    runLoop ops text (fuel + 1) pc textp threads =
      runLoop ops text fuel (pc + 1 + t) textp threads := by
  rw [runLoop, if_pos (lt_of_pyGet_eq_some hpg), hpg]

theorem runLoop_accept {ops : List Opcode} {text : List Char} {fuel : Nat}
    {pc : Int} {textp : Nat} {threads : List Thread}
    (hpg : pyGet ops pc = some .Match) :
    runLoop ops text (fuel + 1) pc textp threads = some (.ok (true, threads)) := by
  rw [runLoop, if_pos (lt_of_pyGet_eq_some hpg), hpg]

theorem runLoop_split {ops : List Opcode} {text : List Char} {fuel : Nat}
    {pc t1 t2 : Int} {textp : Nat} {threads : List Thread}
    (hpg : pyGet ops pc = some (.Split t1 t2)) :
    runLoop ops text (fuel + 1) pc textp threads =
      if MAX_THREADS ≤ threads.length then
        some (.error .tooManyThreads)
      else
        runLoop ops text fuel (pc + 1 + t1) textp (⟨pc + 1 + t2, textp⟩ :: threads) := by
  rw [runLoop, if_pos (lt_of_pyGet_eq_some hpg), hpg]

/-! ## The bounded explicit-thread executor decides `Accepts` -/

theorem runLoop_true_accepts {ops : List Opcode} {text : List Char} :
    ∀ {fuel : Nat} {pc : Int} {textp : Nat} {threads ts : List Thread},
    runLoop ops text fuel pc textp threads = some (.ok (true, ts)) →
    Accepts ops text pc textp := by
  intro fuel
  induction fuel with
  | zero => intro pc textp threads ts h; rw [runLoop_zero] at h; cases h
  | succ f ih =>
    intro pc textp threads ts h
    by_cases hlt : pc < (ops.length : Int)
    · cases hpg : pyGet ops pc with
      | none => rw [runLoop_indexError hlt hpg] at h; simp at h
      | some op =>
        cases op with
        | Char v =>
          rw [runLoop_char hpg] at h
          by_cases hc : text.get? textp = some v
          · rw [if_pos hc] at h
            exact .char hpg hc (ih h)
          · rw [if_neg hc] at h; simp at h
        | Jump t =>
          rw [runLoop_jump hpg] at h
          exact .jump hpg (ih h)
        | Match => exact .acc hpg
        | Split t1 t2 =>
          rw [runLoop_split hpg] at h
          by_cases hm : MAX_THREADS ≤ threads.length
          · rw [if_pos hm] at h; simp at h
          · rw [if_neg hm] at h
            exact .splitL hpg (ih h)
    · exact .offEnd (le_of_not_lt hlt)

theorem runLoop_false_iff {ops : List Opcode} {text : List Char} :
    ∀ {fuel : Nat} {pc : Int} {textp : Nat} {threads ts : List Thread},
    runLoop ops text fuel pc textp threads = some (.ok (false, ts)) →
    ((Accepts ops text pc textp ∨ AnyAccepts ops text threads) ↔
      AnyAccepts ops text ts) := by
  intro fuel
  induction fuel with
  | zero => intro pc textp threads ts h; rw [runLoop_zero] at h; cases h
  | succ f ih =>
    intro pc textp threads ts h
    by_cases hlt : pc < (ops.length : Int)
    · cases hpg : pyGet ops pc with
      | none => rw [runLoop_indexError hlt hpg] at h; simp at h
      | some op =>
        cases op with
        | Char v =>
          rw [runLoop_char hpg] at h
          by_cases hc : text.get? textp = some v
          · rw [if_pos hc] at h
            rw [accepts_char_iff hpg]
            have := ih h
            constructor
            · intro hor
              exact this.mp (hor.imp_left And.right)
            · intro hany
              rcases this.mpr hany with h2 | h2
              · exact Or.inl ⟨hc, h2⟩
              · exact Or.inr h2
          · rw [if_neg hc] at h
            simp only [Option.some.injEq, Except.ok.injEq, Prod.mk.injEq, true_and] at h
            subst h
            have hno : ¬ Accepts ops text pc textp := by
              intro ha
              exact hc ((accepts_char_iff hpg).mp ha).1
            constructor
            · intro hor
              cases hor with
              | inl h2 => exact absurd h2 hno
              | inr h2 => exact h2
            · exact Or.inr
        | Jump t =>
          rw [runLoop_jump hpg] at h
          rw [accepts_jump_iff hpg]
          exact ih h
        | Match => rw [runLoop_accept hpg] at h; simp at h
        | Split t1 t2 =>
          rw [runLoop_split hpg] at h
          by_cases hm : MAX_THREADS ≤ threads.length
          · rw [if_pos hm] at h; simp at h
          · rw [if_neg hm] at h
            have := ih h
            rw [accepts_split_iff hpg]
            constructor
            · intro hor
              apply this.mp
              rcases hor with (h2 | h2) | h2
              · exact Or.inl h2
              · exact Or.inr ⟨_, List.mem_cons_self _ _, h2⟩
              · rcases h2 with ⟨t, ht, h3⟩
                exact Or.inr ⟨t, List.mem_cons_of_mem _ ht, h3⟩
            · intro hany
              rcases this.mpr hany with h2 | ⟨t, ht, h3⟩
              · exact Or.inl (Or.inl h2)
              · rcases List.mem_cons.mp ht with rfl | ht2
                · exact Or.inl (Or.inr h3)
                · exact Or.inr ⟨t, ht2, h3⟩
    · rw [runLoop_offEnd (le_of_not_lt hlt)] at h
      simp at h

/-! ## The match loop decides whether any pending thread accepts -/

theorem matchLoop_true_any {ops : List Opcode} {text : List Char} :
    ∀ {fuel : Nat} {threads : List Thread},
    matchLoop ops text fuel threads = some (.ok true) →
    AnyAccepts ops text threads := by
  intro fuel
  induction fuel with
  | zero => intro threads h; cases threads <;> simp [matchLoop] at h
  | succ f ih =>
    intro threads h
    cases threads with
    | nil => simp [matchLoop] at h
    | cons t rest =>
      rw [matchLoop] at h
      cases hr : runLoop ops text (f + 1) t.pc t.textp rest with
      | none => rw [run_thread, hr] at h; cases h
      | some r =>
        cases r with
        | error e => rw [run_thread, hr] at h; simp at h
        | ok p =>
          rcases p with ⟨b, ts⟩
          cases b with
          | true =>
            exact ⟨t, List.mem_cons_self _ _, runLoop_true_accepts hr⟩
          | false =>
            rw [run_thread, hr] at h
            have hany := ih h
            rcases (runLoop_false_iff hr).mpr hany with h2 | ⟨u, hu, h3⟩
            · exact ⟨t, List.mem_cons_self _ _, h2⟩
            · exact ⟨u, List.mem_cons_of_mem _ hu, h3⟩

theorem matchLoop_false_not_any {ops : List Opcode} {text : List Char} :
    ∀ {fuel : Nat} {threads : List Thread},
    matchLoop ops text fuel threads = some (.ok false) →
    ¬ AnyAccepts ops text threads := by
  intro fuel
  induction fuel with
  | zero => intro threads h; cases threads <;> simp [matchLoop] at h
  | succ f ih =>
    intro threads h
    cases threads with
    | nil =>
      rintro ⟨t, ht, _⟩
      cases ht
    | cons t rest =>
      rw [matchLoop] at h
      cases hr : runLoop ops text (f + 1) t.pc t.textp rest with
      | none => rw [run_thread, hr] at h; cases h
      | some r =>
        cases r with
        | error e => rw [run_thread, hr] at h; simp at h
        | ok p =>
          rcases p with ⟨b, ts⟩
          cases b with
          | true => rw [run_thread, hr] at h; simp at h
          | false =>
            rw [run_thread, hr] at h
            have hnot := ih h
            rintro ⟨u, hu, h3⟩
            apply hnot
            apply (runLoop_false_iff hr).mp
            rcases List.mem_cons.mp hu with rfl | hu2
            · exact Or.inl h3
            · exact Or.inr ⟨u, hu2, h3⟩

/-! ## Unfolding equations for one step of `backtrack` -/

theorem backtrack_zero {ops : List Opcode} {text : List Char} {pc : Int}
    {textp : Nat} : backtrack ops text 0 pc textp = none := rfl

theorem backtrack_offEnd {ops : List Opcode} {text : List Char} {fuel : Nat}
    {pc : Int} {textp : Nat} (hge : (ops.length : Int) ≤ pc) :
    backtrack ops text (fuel + 1) pc textp = some true := by
  rw [backtrack, if_neg (not_lt.mpr hge)]

theorem backtrack_indexError {ops : List Opcode} {text : List Char} {fuel : Nat}
    {pc : Int} {textp : Nat} (hlt : pc < (ops.length : Int))
    (hpg : pyGet ops pc = none) :
    backtrack ops text (fuel + 1) pc textp = none := by
  rw [backtrack, if_pos hlt, hpg]

theorem backtrack_char {ops : List Opcode} {text : List Char} {fuel : Nat}
    {pc : Int} {textp : Nat} {v : Char}
    (hpg : pyGet ops pc = some (.Char v)) :
    backtrack ops text (fuel + 1) pc textp =
      if text.get? textp = some v then
        backtrack ops text fuel (pc + 1) (textp + 1)
      else
        some false := by
  rw [backtrack, if_pos (lt_of_pyGet_eq_some hpg), hpg]

theorem backtrack_jump {ops : List Opcode} {text : List Char} {fuel : Nat}
    {pc t : Int} {textp : Nat} (hpg : pyGet ops pc = some (.Jump t)) :
    backtrack ops text (fuel + 1) pc textp =
      backtrack ops text fuel (pc + 1 + t) textp := by
  rw [backtrack, if_pos (lt_of_pyGet_eq_some hpg), hpg]

theorem backtrack_accept {ops : List Opcode} {text : List Char} {fuel : Nat}
    {pc : Int} {textp : Nat} (hpg : pyGet ops pc = some .Match) :
    backtrack ops text (fuel + 1) pc textp = some true := by
  rw [backtrack, if_pos (lt_of_pyGet_eq_some hpg), hpg]

theorem backtrack_split {ops : List Opcode} {text : List Char} {fuel : Nat}
    {pc t1 t2 : Int} {textp : Nat}
    (hpg : pyGet ops pc = some (.Split t1 t2)) :
    backtrack ops text (fuel + 1) pc textp =
      match backtrack ops text fuel (pc + 1 + t1) textp with
      | none => none
      | some true => some true
      | some false => backtrack ops text fuel (pc + 1 + t2) textp := by
  rw [backtrack, if_pos (lt_of_pyGet_eq_some hpg), hpg]

/-! ## The spec-modelled backtracking executor decides `Accepts` -/

theorem backtrack_true_accepts {ops : List Opcode} {text : List Char} :
    ∀ {fuel : Nat} {pc : Int} {textp : Nat},
    backtrack ops text fuel pc textp = some true →
    Accepts ops text pc textp := by
  intro fuel
  induction fuel with
  | zero => intro pc textp h; cases h
  | succ f ih =>
    intro pc textp h
    by_cases hlt : pc < (ops.length : Int)
    · cases hpg : pyGet ops pc with
      | none => rw [backtrack_indexError hlt hpg] at h; cases h
      | some op =>
        cases op with
        | Char v =>
          rw [backtrack_char hpg] at h
          by_cases hc : text.get? textp = some v
          · rw [if_pos hc] at h
            exact .char hpg hc (ih h)
          · rw [if_neg hc] at h; cases h
        | Jump t =>
          rw [backtrack_jump hpg] at h
          exact .jump hpg (ih h)
        | Match => exact .acc hpg
        | Split t1 t2 =>
          rw [backtrack_split hpg] at h
          cases h1 : backtrack ops text f (pc + 1 + t1) textp with
          | none => rw [h1] at h; cases h
          | some b1 =>
            cases b1 with
            | true => exact .splitL hpg (ih h1)
            | false =>
              rw [h1] at h
              exact .splitR hpg (ih h)
    · exact .offEnd (le_of_not_lt hlt)

theorem backtrack_false_not_accepts {ops : List Opcode} {text : List Char} :
    ∀ {fuel : Nat} {pc : Int} {textp : Nat},
    backtrack ops text fuel pc textp = some false →
    ¬ Accepts ops text pc textp := by
  intro fuel
  induction fuel with
  | zero => intro pc textp h; cases h
  | succ f ih =>
    intro pc textp h
    by_cases hlt : pc < (ops.length : Int)
    · cases hpg : pyGet ops pc with
      | none => rw [backtrack_indexError hlt hpg] at h; cases h
      | some op =>
        cases op with
        | Char v =>
          rw [backtrack_char hpg] at h
          rw [accepts_char_iff hpg]
          by_cases hc : text.get? textp = some v
          · rw [if_pos hc] at h
            intro h2
            exact ih h h2.2
          · rw [if_neg hc] at h
            intro h2
            exact hc h2.1
        | Jump t =>
          rw [backtrack_jump hpg] at h
          rw [accepts_jump_iff hpg]
          exact ih h
        | Match => rw [backtrack_accept hpg] at h; cases h
        | Split t1 t2 =>
          rw [backtrack_split hpg] at h
          rw [accepts_split_iff hpg]
          cases h1 : backtrack ops text f (pc + 1 + t1) textp with
          | none => rw [h1] at h; cases h
          | some b1 =>
            cases b1 with
            | true => rw [h1] at h; cases h
            | false =>
              rw [h1] at h
              rintro (h2 | h2)
              · exact ih h1 h2
              · exact ih h h2
    · rw [backtrack_offEnd (le_of_not_lt hlt)] at h
      cases h

/-! ## Facts about `compile` and the native lowering pass -/

theorem nativeOps_cons_char_err {v : Char} {rest : List Opcode} {e : RegexError}
    (hr : nativeOps rest = .error e) :
    nativeOps (Opcode.Char v :: rest) = .error e := by
  rw [nativeOps, hr]

theorem nativeOps_cons_char_ok {v : Char} {rest : List Opcode} {r : List String}
    (hr : nativeOps rest = .ok r) :
    nativeOps (Opcode.Char v :: rest) =
      .ok (["cmpb [rdi], 0x" ++ toString v.toNat, "jne .Lno_match", "inc rdi"] ++ r) := by
  rw [nativeOps, hr]

theorem nativeOps_map_char (cs : List Char) :
    nativeOps (cs.map Opcode.Char) =
      .ok (cs.flatMap fun v =>
        ["cmpb [rdi], 0x" ++ toString v.toNat, "jne .Lno_match", "inc rdi"]) := by
  induction cs with
  | nil => rfl
  | cons c cs ih => rw [List.map_cons, nativeOps_cons_char_ok ih, List.flatMap_cons]

theorem nativeOps_isErr (ops : List Opcode) :
    isErr (nativeOps ops) = !(allChars ops) := by
  induction ops with
  | nil => rfl
  | cons op rest ih =>
    cases op with
    | Char v =>
      have hall : allChars (Opcode.Char v :: rest) = allChars rest := by
        simp [allChars]
      cases hr : nativeOps rest with
      | error e =>
        rw [nativeOps_cons_char_err hr, hall, ← ih, hr]
      | ok r =>
        rw [nativeOps_cons_char_ok hr, hall, ← ih, hr]
        rfl
    | Match => rfl
    | Jump t => rfl
    | Split t1 t2 => rfl

theorem isErr_native_compile (ops : List Opcode) :
    isErr (native_compile ops) = isErr (nativeOps ops) := by
  cases hn : nativeOps ops with
  | error e => rw [native_compile, hn]; rfl
  | ok r => rw [native_compile, hn]; rfl

theorem compile_seq_err_left {l r : Expr} {e : RegexError}
    (hl : compile l = .error e) : compile (.Seq l r) = .error e := by
  rw [compile, hl]

theorem compile_seq_err_right {l r : Expr} {left : List Opcode} {e : RegexError}
    (hl : compile l = .ok left) (hr : compile r = .error e) :
    compile (.Seq l r) = .error e := by
  rw [compile, hl, hr]

theorem compile_seq_ok {l r : Expr} {left right : List Opcode}
    (hl : compile l = .ok left) (hr : compile r = .ok right) :
    compile (.Seq l r) = .ok (left ++ right) := by
  rw [compile, hl, hr]

theorem compile_alt_err_left {l r : Expr} {e : RegexError}
    (hl : compile l = .error e) : compile (.Alt l r) = .error e := by
  rw [compile, hl]

theorem compile_alt_err_right {l r : Expr} {left : List Opcode} {e : RegexError}
    (hl : compile l = .ok left) (hr : compile r = .error e) :
    compile (.Alt l r) = .error e := by
  rw [compile, hl, hr]

theorem compile_alt_ok {l r : Expr} {left right : List Opcode}
    (hl : compile l = .ok left) (hr : compile r = .ok right) :
    compile (.Alt l r) =
      .ok ([.Split 0 ((left.length : Int) + 1)] ++ left ++
           [.Jump ((right.length : Int) + 1)] ++ right) := by
  rw [compile, hl, hr]

theorem isErr_compile (e : Expr) : isErr (compile e) = hasBad e := by
  induction e with
  | Lit v =>
    match v with
    | [] => rfl
    | [c] => rfl
    | c :: d :: rest => rfl
  | Seq l r ihl ihr =>
    have hbad : hasBad (.Seq l r) = (hasBad l || hasBad r) := rfl
    cases hl : compile l with
    | error e1 =>
      rw [compile_seq_err_left hl, hbad, ← ihl, hl]
      simp [isErr]
    | ok left =>
      cases hr : compile r with
      | error e2 =>
        rw [compile_seq_err_right hl hr, hbad, ← ihl, ← ihr, hl, hr]
        simp [isErr]
      | ok right =>
        rw [compile_seq_ok hl hr, hbad, ← ihl, ← ihr, hl, hr]
        simp [isErr]
  | Alt l r ihl ihr =>
    have hbad : hasBad (.Alt l r) = (hasBad l || hasBad r) := rfl
    cases hl : compile l with
    | error e1 =>
      rw [compile_alt_err_left hl, hbad, ← ihl, hl]
      simp [isErr]
    | ok left =>
      cases hr : compile r with
      | error e2 =>
        rw [compile_alt_err_right hl hr, hbad, ← ihl, ← ihr, hl, hr]
        simp [isErr]
      | ok right =>
        rw [compile_alt_ok hl hr, hbad, ← ihl, ← ihr, hl, hr]
        simp [isErr]
  | Maybe e ih => rfl
  | Star e ih => rfl
  | Plus e ih => rfl

/-! ## The claims -/

/-- Claim C1 (refuted; the code diverges from the spec's intent): executing
a compiled expression is NOT always the same as directly interpreting it.
Because `compile` emits `Jump(len(right)+1)` for an alternation — one more
than the `jmp L3` of its own comment diagram — the jump from the left
branch of an `Alt` skips the first instruction that follows the
alternation block.  Concretely for `Seq (Alt (Lit "a") (Lit "b")) (Lit
"c")`: the VM accepts the text `"a"` without ever checking for `'c'`,
while the reference interpretation (no prefix of `"a"` is in the language
`{"ac","bc"}`) says `false`. -/
theorem c1_compiled_alt_in_seq_disagrees_with_reference :
    compile (.Seq (.Alt (.Lit ['a']) (.Lit ['b'])) (.Lit ['c'])) =
      .ok [.Split 0 2, .Char 'a', .Jump 2, .Char 'b', .Char 'c'] ∧
    matchRun [.Split 0 2, .Char 'a', .Jump 2, .Char 'b', .Char 'c'] ['a'] 50 =
      some (.ok true) ∧
    refMatch (.Seq (.Alt (.Lit ['a']) (.Lit ['b'])) (.Lit ['c'])) ['a'] = false :=
  ⟨rfl, rfl, rfl⟩

/-- Claim C2 (refuted; the emitted displacement is off by one): for
`a = Lit "a"`, `b = Lit "b"` (so `L = [Char 'a']`, `R = [Char 'b']`), the
compiled alternation carries `Jump 2 = Jump (len R + 1)`, not the claimed
`Jump (len R)`: the program is not `[Branch(0,len L + 1)] ++ L ++
[Jump (len R)] ++ R`. -/
theorem c2_alternation_jump_displacement_off_by_one :
    compile (.Alt (.Lit ['a']) (.Lit ['b'])) =
      .ok [.Split 0 2, .Char 'a', .Jump 2, .Char 'b'] ∧
    ([.Split 0 2, .Char 'a', .Jump 2, .Char 'b'] : List Opcode) ≠
      [.Split 0 ((([Opcode.Char 'a'] : List Opcode).length : Int) + 1)] ++
        [Opcode.Char 'a'] ++
        [.Jump (([Opcode.Char 'b'] : List Opcode).length : Int)] ++
        [Opcode.Char 'b'] :=
  ⟨rfl, by decide⟩

/-- Claim C3 (refuted on compiled output): the addressing invariant
`[0, len(program)]` fails for the program compiled from
`Alt (Lit "a") (Lit "b")`: its `Jump 2` at index 2 lands at
`3 + 2 = 5 = len + 1`. -/
theorem c3_compiled_offset_escapes_range :
    compile (.Alt (.Lit ['a']) (.Lit ['b'])) =
      .ok [.Split 0 2, .Char 'a', .Jump 2, .Char 'b'] ∧
    offsetsInRange [.Split 0 2, .Char 'a', .Jump 2, .Char 'b'] = false :=
  ⟨rfl, by decide⟩

/-- Claim C4: whenever a `Split` is executed with the pending-thread count
already at `MAX_THREADS`, the run fails with the resource-exhaustion error
(it neither returns `false` nor drops the thread); and the eleven-deep
left-nested alternation `deepAlt 11` compiles to a program whose execution
raises exactly that error. -/
theorem c4_thread_ceiling_raises :
    (∀ (ops : List Opcode) (text : List Char) (fuel : Nat) (pc t1 t2 : Int)
        (textp : Nat) (threads : List Thread),
        pyGet ops pc = some (.Split t1 t2) →
        MAX_THREADS ≤ threads.length →
        runLoop ops text (fuel + 1) pc textp threads =
          some (.error .tooManyThreads)) ∧
    (compile (deepAlt 11)).map (fun P => matchRun P ['a'] 100) =
      .ok (some (.error .tooManyThreads)) := by
  constructor
  · intro ops text fuel pc t1 t2 textp threads hpg hm
    rw [runLoop_split hpg, if_pos hm]
  · rfl

/-- Witness for C4: the ceiling check fires on a concrete `Split` with ten
pending threads. -/
theorem c4_thread_ceiling_raises_witness :
    runLoop [Opcode.Split 0 0] [] 1 0 0
      [⟨0,0⟩,⟨0,0⟩,⟨0,0⟩,⟨0,0⟩,⟨0,0⟩,⟨0,0⟩,⟨0,0⟩,⟨0,0⟩,⟨0,0⟩,⟨0,0⟩] =
      some (.error .tooManyThreads) :=
  c4_thread_ceiling_raises.1 [Opcode.Split 0 0] [] 0 0 0 0 0
    [⟨0,0⟩,⟨0,0⟩,⟨0,0⟩,⟨0,0⟩,⟨0,0⟩,⟨0,0⟩,⟨0,0⟩,⟨0,0⟩,⟨0,0⟩,⟨0,0⟩]
    rfl (by decide)

/-- Claim C5: matching is prefix acceptance — the empty program accepts
every string; `[Char 'a', Char 'b']` accepts `"abc"` (trailing input is
fine) but rejects `"ac"`; and a thread that reaches `Match` (`Accept`)
returns true immediately, regardless of the remaining input. -/
theorem c5_prefix_acceptance :
    (∀ (s : List Char) (fuel : Nat), matchRun [] s (fuel + 1) = some (.ok true)) ∧
    matchRun [.Char 'a', .Char 'b'] ['a','b','c'] 50 = some (.ok true) ∧
    matchRun [.Char 'a', .Char 'b'] ['a','c'] 50 = some (.ok false) ∧
    (∀ (ops : List Opcode) (text : List Char) (fuel : Nat) (pc : Int)
        (textp : Nat) (threads : List Thread),
        pyGet ops pc = some .Match →
        runLoop ops text (fuel + 1) pc textp threads = some (.ok (true, threads))) := by
  refine ⟨fun s fuel => rfl, rfl, rfl, ?_⟩
  intro ops text fuel pc textp threads hpg
  exact runLoop_accept hpg

/-- Witness for C5: the `Match` rule on a concrete program with input left
over. -/
theorem c5_prefix_acceptance_witness :
    runLoop [Opcode.Match] ['z'] 3 0 0 [] = some (.ok (true, [])) :=
  c5_prefix_acceptance.2.2.2 [Opcode.Match] ['z'] 2 0 0 [] rfl

/-- Claim C6: `Jump` and `Split` displacements are relative to the
instruction after them: the four test programs of the spec behave exactly
as stated. -/
theorem c6_relative_displacements :
    matchRun [.Char 'a', .Jump 1, .Char 'x', .Char 'b'] ['a','b'] 50 =
      some (.ok true) ∧
    matchRun [.Split 0 2, .Char 'a', .Jump 2, .Char 'b', .Char 'c'] ['a'] 50 =
      some (.ok true) ∧
    matchRun [.Split 0 2, .Char 'a', .Jump 2, .Char 'b', .Char 'c'] ['b'] 50 =
      some (.ok false) ∧
    matchRun [.Split 0 2, .Char 'a', .Jump 2, .Char 'b', .Char 'c'] ['c'] 50 =
      some (.ok false) ∧
    matchRun [.Split 0 2, .Char 'a', .Jump 2, .Char 'b', .Char 'c'] ['b','c'] 50 =
      some (.ok true) :=
  ⟨rfl, rfl, rfl, rfl, rfl⟩

/-- Claim C7: `compile` errors exactly on inputs containing a literal
whose value is not one character or an unsupported variant (`Maybe`,
`Star`, `Plus`); since the result is a single `Except` value, an error
carries no partially-built program; and a single-character literal
compiles to exactly one `Char` opcode. -/
theorem c7_compile_error_conditions :
    (∀ e : Expr, isErr (compile e) = hasBad e) ∧
    (∀ c : Char, compile (.Lit [c]) = .ok [.Char c]) :=
  ⟨isErr_compile, fun _ => rfl⟩

/-- Claim C8: the bounded explicit-thread strategy and the (spec-modelled)
recursive backtracking strategy agree — whenever the threaded `match`
completes without an error and the backtracker completes, they return the
same boolean. -/
theorem c8_executor_strategies_agree
    (ops : List Opcode) (text : List Char) (f f2 : Nat) (b b2 : Bool)
    (h1 : matchRun ops text f = some (.ok b))
    (h2 : backtrack ops text f2 0 0 = some b2) :
    b = b2 := by
  have h1' : matchLoop ops text f [⟨0, 0⟩] = some (.ok b) := h1
  cases b with
  | true =>
    rcases matchLoop_true_any h1' with ⟨t, ht, hacc⟩
    rcases List.mem_singleton.mp ht with rfl
    cases b2 with
    | true => rfl
    | false => exact absurd hacc (backtrack_false_not_accepts h2)
  | false =>
    have hnot := matchLoop_false_not_any h1'
    cases b2 with
    | true =>
      exact absurd ⟨⟨0, 0⟩, List.mem_singleton_self _, backtrack_true_accepts h2⟩ hnot
    | false => rfl

/-- Witness for C8: both strategies run a concrete alternation program on
`"bc"` and the theorem transports one verdict to the other. -/
theorem c8_executor_strategies_agree_witness :
    matchRun [.Split 0 2, .Char 'a', .Jump 2, .Char 'b', .Char 'c'] ['b','c'] 20 =
      some (.ok true) ∧
    backtrack [.Split 0 2, .Char 'a', .Jump 2, .Char 'b', .Char 'c'] ['b','c'] 20 0 0 =
      some true ∧
    (true : Bool) = true :=
  ⟨rfl, rfl,
    c8_executor_strategies_agree
      [.Split 0 2, .Char 'a', .Jump 2, .Char 'b', .Char 'c'] ['b','c']
      20 20 true true rfl rfl⟩

/-- Claim C9: the native lowering pass emits, for each `Char v`, exactly
the three lines compare / conditional jump to the shared failure label /
input-pointer increment, in program order, and it errors exactly when some
opcode is not a `Char`. -/
theorem c9_native_lowering :
    (∀ cs : List Char,
      native_compile (cs.map Opcode.Char) =
        .ok (String.intercalate "\n" (cs.flatMap fun v =>
          ["cmpb [rdi], 0x" ++ toString v.toNat, "jne .Lno_match", "inc rdi"]))) ∧
    (∀ ops : List Opcode, isErr (native_compile ops) = !(allChars ops)) := by
  constructor
  · intro cs
    rw [native_compile, nativeOps_map_char]
  · intro ops
    rw [isErr_native_compile, nativeOps_isErr]

/-- Witness for C9: the lowering of `[Char 'a', Char 'b']` is the exact
six-line text the repository's own test asserts, and a `Jump` makes the
pass fail. -/
theorem c9_native_lowering_witness :
    native_compile [Opcode.Char 'a', Opcode.Char 'b'] =
      .ok "cmpb [rdi], 0x97\njne .Lno_match\ninc rdi\ncmpb [rdi], 0x98\njne .Lno_match\ninc rdi" ∧
    isErr (native_compile [Opcode.Char 'a', Opcode.Jump 0]) = true :=
  ⟨(c9_native_lowering.1 ['a', 'b']).trans rfl,
    (c9_native_lowering.2 [Opcode.Char 'a', Opcode.Jump 0]).trans rfl⟩

/-- Claim C10: a thread whose program counter is at or past the end of the
program — strictly past included — succeeds immediately; and the compiled
alternation `a|b` exercises this: its `Jump 2` at index 2 sends the left
branch to `5 = len + 1`, one past the end of the 4-instruction program,
and matching `"a"` succeeds through exactly that overshoot. -/
theorem c10_pc_overshoot_succeeds :
    (∀ (ops : List Opcode) (text : List Char) (fuel : Nat) (pc : Int)
        (textp : Nat) (threads : List Thread),
        (ops.length : Int) ≤ pc →
        runLoop ops text (fuel + 1) pc textp threads = some (.ok (true, threads))) ∧
    compile (.Alt (.Lit ['a']) (.Lit ['b'])) =
      .ok [.Split 0 2, .Char 'a', .Jump 2, .Char 'b'] ∧
    pyGet [.Split 0 2, .Char 'a', .Jump 2, .Char 'b'] 2 = some (.Jump 2) ∧
    (2 : Int) + 1 + 2 =
      (([Opcode.Split 0 2, .Char 'a', .Jump 2, .Char 'b'] : List Opcode).length : Int) + 1 ∧
    matchRun [.Split 0 2, .Char 'a', .Jump 2, .Char 'b'] ['a'] 50 = some (.ok true) := by
  refine ⟨?_, rfl, rfl, by decide, rfl⟩
  intro ops text fuel pc textp threads h
  exact runLoop_offEnd h

/-- Witness for C10: a pc strictly beyond the end of a concrete program
returns success. -/
theorem c10_pc_overshoot_succeeds_witness :
    runLoop [Opcode.Char 'a'] [] 1 5 0 [] = some (.ok (true, [])) :=
  c10_pc_overshoot_succeeds.1 [Opcode.Char 'a'] [] 0 5 0 [] (by decide)

end RscRegex
